import Mathlib

/-!
# Verification of the HTTP/1.1 server core (src/unnamed/part_002)

Shallow embedding of the TypeScript web-server sources.  Bytes are modelled
as natural numbers (each byte value fits in 0..255), JS `Buffer`s as
`List Nat`, and JS strings at the byte level (the strings handled by the
relevant code paths are ASCII, where UTF-8/latin1 decoding is the
identity on byte values).  Fallible code returns `Except`; the promise
layer of the socket adapter is modelled as an explicit event queue, where
`none` stands for a suspended (never-resolving) promise.
-/

namespace WebSrv

abbrev Bytes := List Nat

/-- Byte view of an ASCII string literal (JS strings at byte level). -/
def strBytes (s : String) : Bytes := s.data.map Char.toNat

/-- Errors thrown by the server: `http` models the `HTTPError` class with
its status `code`, `generic` models a plain JS `Error` (no status code). -/
inductive SrvError where
  | http (code : Nat) (msg : String)
  | generic (msg : String)
deriving DecidableEq

instance {e a : Type} [DecidableEq e] [DecidableEq a] : DecidableEq (Except e a) := fun x y =>
  match x, y with
  | .ok u, .ok w =>
      if h : u = w then .isTrue (congrArg Except.ok h)
      else .isFalse (fun hh => h (Except.ok.inj hh))
  | .error u, .error w =>
      if h : u = w then .isTrue (congrArg Except.error h)
      else .isFalse (fun hh => h (Except.error.inj hh))
  | .ok _, .error _ => .isFalse (fun hh => Except.noConfusion hh)
  | .error _, .ok _ => .isFalse (fun hh => Except.noConfusion hh)

/-! ## Growable byte buffer (`DynBuf`, `bufPush`, `bufPop`) -/

/-- Model of `DynBuf`: `data` is the physical backing buffer (its list length is the
capacity), `length` is the logical number of valid bytes at the front. -/
structure DynBuf where
  data : Bytes
  length : Nat
deriving DecidableEq

/-- Node `Buffer.alloc(n)`: `n` zero bytes. -/
def bufAlloc (n : Nat) : Bytes := List.replicate n 0

/-- Node `Buffer.copy`, as `src.copy(dst, dstStart)`: write `src` into `dst`
starting at `dstStart`, truncated to `dst`'s size; `dst`'s size is kept. -/
def bufCopy (src dst : Bytes) (dstStart : Nat) : Bytes :=
  let n := min src.length (dst.length - dstStart)
  dst.take dstStart ++ src.take n ++ dst.drop (dstStart + n)

/-- The capacity-doubling loop of `bufPush` (`while (cap < newLen) cap *= 2`),
written with an explicit iteration bound so that it evaluates by reduction:
since the callers pass `cap ≥ 32` and the capacity at least doubles each
step, `newLen` iterations always suffice to leave the loop, so `growCapGo
newLen cap newLen` computes exactly what the JS loop does. -/
def growCapGo : Nat → Nat → Nat → Nat
  | 0, cap, _ => cap
  | fuel + 1, cap, newLen =>
      if cap < newLen then growCapGo fuel (cap * 2) newLen else cap

def growCap (cap newLen : Nat) : Nat := growCapGo newLen cap newLen

/-- Model of `bufPush(buf, data)`: append `data` at the tail, growing the capacity by
powers of two (floor 32) when needed. -/
def bufPush (buf : DynBuf) (data : Bytes) : DynBuf :=
  let newLen := buf.length + data.length
  let bdata :=
    if buf.data.length < newLen then
      bufCopy buf.data (bufAlloc (growCap (max buf.data.length 32) newLen)) 0
    else buf.data
  { data := bufCopy data bdata buf.length, length := newLen }

/-- Model of `bufPop(buf, len)`: `copyWithin(0, len, buf.length)` then shrink the
logical length (remove `len` bytes from the front). -/
def bufPop (buf : DynBuf) (len : Nat) : DynBuf :=
  { data := bufCopy ((buf.data.take buf.length).drop len) buf.data 0
    length := buf.length - len }

/-- The logical content of a `DynBuf`: the first `length` bytes of `data`
(`buf.data.subarray(0, buf.length)`). -/
def dbContent (buf : DynBuf) : Bytes := buf.data.take buf.length

/-- The buffer used by `serveClient`: `Buffer.alloc(0)`, length 0. -/
def emptyDynBuf : DynBuf := { data := [], length := 0 }

/-- Node `Buffer.indexOf`, as `hay.indexOf(pat)`: least index where `pat`
occurs as a contiguous subsequence, `none` if absent. -/
def bufIndexOf (pat : Bytes) : Bytes → Option Nat
  | [] => if pat.isPrefixOf [] then some 0 else none
  | b :: rest =>
      if pat.isPrefixOf (b :: rest) then some 0
      else (bufIndexOf pat rest).map (· + 1)

/-! ## Message framer (`splitLines`, `parseRequestLine`, `validateHeader`,
`parseHTTPReq`, `cutMessage`) -/

/-- Worker for `splitLines`: scan for `\r\n` (0x0d 0x0a) pairs, collecting
the current line in `acc`; a final line without a trailing `\r\n` is kept. -/
def splitLinesGo : Bytes → Bytes → List Bytes
  | 13 :: 10 :: rest, acc => acc :: splitLinesGo rest []
  | b :: rest, acc => splitLinesGo rest (acc ++ [b])
  | [], acc => if acc = [] then [] else [acc]

/-- Model of `splitLines(data)`: split on CRLF pairs, left to right. -/
def splitLines (data : Bytes) : List Bytes := splitLinesGo data []

/-- JS `line.split(" ")`: split on every single space byte (0x20), keeping
empty tokens; never returns an empty list. -/
def splitSp : Bytes → List Bytes
  | [] => [[]]
  | 32 :: rest => [] :: splitSp rest
  | b :: rest =>
      match splitSp rest with
      | t :: ts => (b :: t) :: ts
      | [] => [[b]]

/-- The `validMethods` whitelist of `parseRequestLine`. -/
def validMethods : List Bytes :=
  [strBytes "GET", strBytes "POST", strBytes "PUT", strBytes "DELETE",
   strBytes "HEAD", strBytes "OPTIONS", strBytes "PATCH",
   strBytes "CONNECT", strBytes "TRACE"]

/-- Model of `parseRequestLine(line)`: split on single spaces into exactly 3 tokens
(method, uri, version), method must be whitelisted; otherwise status 400. -/
def parseRequestLine (line : Bytes) :
    Except SrvError (Bytes × Bytes × Bytes) :=
  match splitSp line with
  | [m, u, v] =>
      if validMethods.contains m then .ok (m, u, v)
      else .error (.http 400 "Invalid HTTP method")
  | _ => .error (.http 400 "Malformed request line")

/-- JS whitespace recognised by `String.prototype.trim`, restricted to the
ASCII range handled by this server (tab, LF, VT, FF, CR, space). -/
def isWsp (b : Nat) : Bool := b = 9 || b = 10 || b = 11 || b = 12 || b = 13 || b = 32

/-- JS `s.trim()` at byte level: strip leading and trailing whitespace. -/
def trimBytes (s : Bytes) : Bytes :=
  ((s.dropWhile isWsp).reverse.dropWhile isWsp).reverse

/-- RFC 7230 token characters, the class of
`/^[!#$%&'*+\-.^_`|~0-9a-zA-Z]+$/` (0x60 is the backquote character). -/
def isTokenByte (b : Nat) : Bool :=
  (decide (48 ≤ b) && decide (b ≤ 57)) ||
  (decide (65 ≤ b) && decide (b ≤ 90)) ||
  (decide (97 ≤ b) && decide (b ≤ 122)) ||
  [33, 35, 36, 37, 38, 39, 42, 43, 45, 46, 94, 95, 96, 124, 126].contains b

/-- Model of `validateHeader(header)`: needs a colon, non-empty trimmed name and
value, and a name made of RFC 7230 token characters. -/
def validateHeader (header : Bytes) : Bool :=
  match bufIndexOf [58] header with
  | none => false
  | some colonIndex =>
      let name := trimBytes (header.take colonIndex)
      let value := trimBytes (header.drop (colonIndex + 1))
      if name.isEmpty || value.isEmpty then false
      else name.all isTokenByte

/-- The header-validation loop of `parseHTTPReq`: each line must pass
`validateHeader`, else status 400 "bad field"; lines are kept verbatim. -/
def checkHeaders : List Bytes → Except SrvError (List Bytes)
  | [] => .ok []
  | h :: rest =>
      if validateHeader h then (checkHeaders rest).map (fun hs => h :: hs)
      else .error (.http 400 "bad field")

/-- Parsed HTTP request header (`HTTPReq`). -/
structure HTTPReq where
  method : Bytes
  uri : Bytes
  version : Bytes
  headers : List Bytes
deriving DecidableEq

/-- Model of `parseHTTPReq(data)`: split into lines, parse the request line, then
validate every header line except the final empty one.  `headD []` models
`lines[0]`; `splitLines` is non-empty for the non-empty inputs
`cutMessage` passes (it only calls this on blocks ending in CRLF CRLF). -/
def parseHTTPReq (data : Bytes) : Except SrvError HTTPReq :=
  match parseRequestLine ((splitLines data).headD []) with
  | .error e => .error e
  | .ok (m, u, v) =>
      match checkHeaders (((splitLines data).drop 1).dropLast) with
      | .error e => .error e
      | .ok hs => .ok { method := m, uri := u, version := v, headers := hs }

/-- The CRLF CRLF header terminator. -/
def crlf2 : Bytes := [13, 10, 13, 10]

/-- The constant `kMaxHeaderLen = 1024 * 8`. -/
def kMaxHeaderLen : Nat := 8192

/-- Model of `cutMessage(buf)`: look for CRLF CRLF in the valid region; absent →
`null` unless the buffer already holds `kMaxHeaderLen` bytes (status 413);
present → parse the block and pop it from the buffer.  The second
component is the buffer state after the call (mutation made explicit). -/
def cutMessage (buf : DynBuf) : Except SrvError (Option HTTPReq) × DynBuf :=
  match bufIndexOf crlf2 (dbContent buf) with
  | none =>
      if kMaxHeaderLen ≤ buf.length then
        (.error (.http 413 "header is too large"), buf)
      else (.ok none, buf)
  | some idx =>
      match parseHTTPReq (buf.data.take (idx + 4)) with
      | .error e => (.error e, buf)
      | .ok msg => (.ok (some msg), bufPop buf (idx + 4))

/-! ## Header lookup (`fieldGet`) and `parseDec` -/

/-- ASCII `toLowerCase` on one byte. -/
def lowerByte (b : Nat) : Nat := if 65 ≤ b ∧ b ≤ 90 then b + 32 else b

/-- ASCII `toLowerCase` on a byte string. -/
def lowerBytes (s : Bytes) : Bytes := s.map lowerByte

/-- The per-header test of `fieldGet`'s loop: the part before the first
colon, trimmed and lowercased, equals the (lowercased) key. -/
def headerNameIs (lowerKey : Bytes) (header : Bytes) : Bool :=
  match bufIndexOf [58] header with
  | some i => lowerBytes (trimBytes (header.take i)) == lowerKey
  | none => false

/-- The value `fieldGet` extracts from a header line: the part after the
first colon, trimmed.  (Only used on lines that contain a colon.) -/
def headerValueOf (header : Bytes) : Bytes :=
  match bufIndexOf [58] header with
  | some i => trimBytes (header.drop (i + 1))
  | none => []

/-- The loop of `fieldGet`: first match in list order wins. -/
def fieldGetGo (lowerKey : Bytes) : List Bytes → Option Bytes
  | [] => none
  | h :: rest =>
      if headerNameIs lowerKey h then some (headerValueOf h)
      else fieldGetGo lowerKey rest

/-- Model of `fieldGet(headers, key)`: case-insensitive lookup of the first header
line whose name matches; returns the trimmed value, `null` if no match. -/
def fieldGet (headers : List Bytes) (key : Bytes) : Option Bytes :=
  fieldGetGo (lowerBytes key) headers

/-- The longest digit run at the front: `none` when the first byte is not a
decimal digit (the `NaN` case of `parseInt`). -/
def decDigitsGo (acc : Nat) : Bytes → Nat
  | [] => acc
  | b :: rest =>
      if 48 ≤ b ∧ b ≤ 57 then decDigitsGo (acc * 10 + (b - 48)) rest else acc

def decDigits : Bytes → Option Nat
  | [] => none
  | b :: rest =>
      if 48 ≤ b ∧ b ≤ 57 then some (decDigitsGo (b - 48) rest) else none

/-- Model of `parseDec(input) = parseInt(input, 10)`: skip whitespace, optional
sign, then the longest digit run; `none` models `NaN`.  (JS numbers are
doubles; the exact-integer model agrees on every in-range value.) -/
def parseDec (s : Bytes) : Option Int :=
  match s.dropWhile isWsp with
  | 43 :: rest => (decDigits rest).map (fun n => (n : Int))
  | 45 :: rest => (decDigits rest).map (fun n => -(n : Int))
  | s' => (decDigits s').map (fun n => (n : Int))

/-! ## Byte stream adapter (`TCPConn`, `socketRead`, `socketWrite`)

The promise layer is modelled as a queue of socket events still to be
delivered.  `pauseOnConnect` plus the pause-after-data discipline mean a
`data`/`end`/`error` event is delivered exactly when a read is pending, so
each `socketRead` consumes one queued event; a read with an empty queue
suspends forever (`none`).  The `err` slot is sticky and `ended` is the
EOF flag, exactly as in the `TCPConn` record. -/

inductive SockEvent where
  | data (bytes : Bytes)
  | endEv
  | errEv (msg : String)
deriving DecidableEq

structure TCPConn where
  pending : List SockEvent
  err : Option String
  ended : Bool
deriving DecidableEq

/-- Model of `socketRead(conn)`: a stored error rejects immediately; after `ended`
the read resolves immediately with an empty chunk; otherwise the next
event fulfils the promise (`data` → chunk, `end` → empty chunk and set
`ended`, `error` → store and reject). -/
def socketRead (c : TCPConn) : Option (Except SrvError Bytes × TCPConn) :=
  match c.err with
  | some e => some (.error (.generic e), c)
  | none =>
      if c.ended then some (.ok [], c)
      else
        match c.pending with
        | [] => none
        | .data d :: rest => some (.ok d, { c with pending := rest })
        | .endEv :: rest =>
            some (.ok [], { c with pending := rest, ended := true })
        | .errEv m :: rest =>
            some (.error (.generic m), { c with pending := rest, err := some m })

/-- Model of `socketWrite(conn, data)`: rejects when an error is stored, otherwise
the bytes are handed to the transport (bytes written are collected by the
callers below). -/
def socketWrite (c : TCPConn) (_data : Bytes) : Except SrvError Unit :=
  match c.err with
  | some e => .error (.generic e)
  | none => .ok ()

/-! ## Body readers (`BodyReader`, `readerFromConnLength`,
`readerFromMemory`, `readerFromReq`) -/

/-- State of a `BodyReader`.  Here `fromConnLength` is the stream-backed reader of
`readerFromConnLength` with its mutable `remain` closure variable;
`fromMemory` is `readerFromMemory` with its `done` flag.  The TS object's
fixed `length` property is recovered by `BodyReader.length` below (the
claims only use it before any read, where the two coincide). -/
inductive BodyReader where
  | fromConnLength (remain : Int)
  | fromMemory (data : Bytes) (done : Bool)
deriving DecidableEq

def BodyReader.length : BodyReader → Int
  | .fromConnLength remain => remain
  | .fromMemory data _ => data.length

/-- The buffer-consuming tail of `readerFromConnLength.read`:
`consume = Math.min(buf.length, remain)`, slice it off the front. -/
def lenConsume (remain : Int) (conn : TCPConn) (buf : DynBuf) :
    Except SrvError Bytes × BodyReader × TCPConn × DynBuf :=
  let consume := min (Int.ofNat buf.length) remain
  (.ok (buf.data.take consume.toNat), .fromConnLength (remain - consume),
    conn, bufPop buf consume.toNat)

/-- One call of `read()` on a body reader.  The stream-backed variant
shares `conn` and `buf` with the connection (captured by closure in TS,
threaded explicitly here); `none` = the underlying stream read suspended. -/
def bodyRead (r : BodyReader) (conn : TCPConn) (buf : DynBuf) :
    Option (Except SrvError Bytes × BodyReader × TCPConn × DynBuf) :=
  match r with
  | .fromMemory data done =>
      if done then some (.ok [], .fromMemory data true, conn, buf)
      else some (.ok data, .fromMemory data true, conn, buf)
  | .fromConnLength remain =>
      if remain = 0 then some (.ok [], .fromConnLength remain, conn, buf)
      else
        if buf.length = 0 then
          match socketRead conn with
          | none => none
          | some (.error e, conn') =>
              some (.error e, .fromConnLength remain, conn', buf)
          | some (.ok data, conn') =>
              let buf' := bufPush buf data
              if data.length = 0 then
                some (.error (.generic "Unexpected EOF from HTTP body"),
                  .fromConnLength remain, conn', buf')
              else some (lenConsume remain conn' buf')
        else some (lenConsume remain conn buf)

/-- The Content-Length handling at the top of `readerFromReq`:
`bodyLen = -1` when the header is absent, parsed with `parseDec`
otherwise, where a `NaN` result throws status 400. -/
def bodyLenOf (headers : List Bytes) : Except SrvError Int :=
  match fieldGet headers (strBytes "Content-Length") with
  | none => .ok (-1)
  | some v =>
      match parseDec v with
      | none => .error (.http 400 "bad Content-Length.")
      | some n => .ok n

/-- Model of `readerFromReq(conn, buf, req)`: decide the body framing from the
parsed request.  (`conn` and `buf` are only captured for later reads and
are threaded at read time by `bodyRead`, so they are not parameters
here.) -/
def readerFromReq (req : HTTPReq) : Except SrvError BodyReader :=
  match bodyLenOf req.headers with
  | .error e => .error e
  | .ok bodyLen =>
      let bodyAllowed :=
        !(req.method == strBytes "GET" || req.method == strBytes "HEAD")
      let chunked :=
        fieldGet req.headers (strBytes "Transfer-Encoding")
          == some (strBytes "chunked")
      if !bodyAllowed && (decide (0 < bodyLen) || chunked) then
        .error (.http 400 "HTTP body not allowed.")
      else
        let bodyLen := if !bodyAllowed then 0 else bodyLen
        if 0 ≤ bodyLen then .ok (.fromConnLength bodyLen)
        else if chunked then .error (.http 501 "TODO")
        else .error (.http 501 "TODO")

/-! ## Response encoding and writing (`HTTPRes`, `encodeHTTPResp`,
`writeHTTPResp`) -/

structure HTTPRes where
  code : Nat
  headers : List Bytes
  body : BodyReader
deriving DecidableEq

/-- Model of `getReasonPhrase(statusCode)`: the fixed table, generic otherwise. -/
def getReasonPhrase (statusCode : Nat) : String :=
  if statusCode = 200 then "OK"
  else if statusCode = 201 then "Created"
  else if statusCode = 204 then "No Content"
  else if statusCode = 400 then "Bad Request"
  else if statusCode = 401 then "Unauthorized"
  else if statusCode = 403 then "Forbidden"
  else if statusCode = 404 then "Not Found"
  else if statusCode = 500 then "Internal Server Error"
  else if statusCode = 501 then "Not Implemented"
  else if statusCode = 502 then "Bad Gateway"
  else if statusCode = 503 then "Service Unavailable"
  else "Unknown Status"

/-- Model of `encodeHTTPResp(resp)`: status line, header lines, blank line. -/
def encodeHTTPResp (resp : HTTPRes) : Bytes :=
  strBytes ("HTTP/1.1 " ++ toString resp.code ++ " "
      ++ getReasonPhrase resp.code)
    ++ [13, 10]
    ++ (resp.headers.map (fun h => h ++ [13, 10])).flatten
    ++ [13, 10]

/-- The content-length header `writeHTTPResp` pushes. -/
def clHeaderOf (len : Int) : Bytes :=
  strBytes ("Content-Length: " ++ toString len)

/-- The response after `writeHTTPResp` pushed its content-length header. -/
def respWithCL (resp : HTTPRes) : HTTPRes :=
  { resp with headers := resp.headers ++ [clHeaderOf resp.body.length] }

/-- The body-writing loop of `writeHTTPResp`.  Returns the chunks written
so far together with the outcome (`none` = suspended or out of fuel). -/
def writeBodyLoop (fuel : Nat) (conn : TCPConn) (buf : DynBuf)
    (r : BodyReader) (acc : List Bytes) :
    List Bytes × Option (Except SrvError (TCPConn × DynBuf × BodyReader)) :=
  match fuel with
  | 0 => (acc, none)
  | fuel + 1 =>
      match bodyRead r conn buf with
      | none => (acc, none)
      | some (.error e, _, _, _) => (acc, some (.error e))
      | some (.ok data, r', conn', buf') =>
          if data.length = 0 then (acc, some (.ok (conn', buf', r')))
          else
            match socketWrite conn' data with
            | .error e => (acc, some (.error e))
            | .ok _ => writeBodyLoop fuel conn' buf' r' (acc ++ [data])

/-- Model of `writeHTTPResp(conn, resp)`: a negative declared body length throws a
plain `Error`; otherwise push the content-length header, write the encoded
header, then stream the body.  First component: the chunks written. -/
def writeHTTPResp (fuel : Nat) (conn : TCPConn) (buf : DynBuf)
    (resp : HTTPRes) :
    List Bytes × Option (Except SrvError (TCPConn × DynBuf × BodyReader)) :=
  if resp.body.length < 0 then
    ([], some (.error (.generic "TODO: chunked encoding")))
  else
    match socketWrite conn (encodeHTTPResp (respWithCL resp)) with
    | .error e => ([], some (.error e))
    | .ok _ =>
        writeBodyLoop fuel conn buf (respWithCL resp).body
          [encodeHTTPResp (respWithCL resp)]

/-! ## Connection driver (`serveClient` await-header state,
`newConnection` error recovery) -/

/-- Outcome of one pass through the framing phase of `serveClient`'s
loop. -/
inductive ServeStep where
  | gotMsg (req : HTTPReq) (buf : DynBuf)
  | closed
  | again (conn : TCPConn) (buf : DynBuf)
deriving DecidableEq

/-- One iteration of `serveClient`'s await-header state: try `cutMessage`;
on `null` read once more; an empty read with an empty buffer terminates
normally, an empty read with leftover bytes throws 400 "Unexpected EOF.". -/
def awaitHeader (conn : TCPConn) (buf : DynBuf) :
    Option (Except SrvError ServeStep) :=
  match cutMessage buf with
  | (.error e, _) => some (.error e)
  | (.ok (some msg), buf') => some (.ok (.gotMsg msg buf'))
  | (.ok none, buf') =>
      match socketRead conn with
      | none => none
      | some (.error e, _) => some (.error e)
      | some (.ok data, conn') =>
          let buf'' := bufPush buf' data
          if data.length = 0 ∧ buf''.length = 0 then some (.ok .closed)
          else if data.length = 0 then
            some (.error (.http 400 "Unexpected EOF."))
          else some (.ok (.again conn' buf''))

/-- Model of `newConnection`'s catch block: only an `instanceof HTTPError`
exception is turned into an error response (status, message + newline as
body); a plain `Error` produces no response. -/
def excpResponse : SrvError → Option HTTPRes
  | .http code msg =>
      some { code := code, headers := []
             body := .fromMemory (strBytes (msg ++ "\n")) false }
  | .generic _ => none

/-! ## The framing experiment of claim C1

Feed a list of chunks into a fresh buffer one `bufPush` at a time, calling
`cutMessage` after each push (the shape of `serveClient`'s framing loop):
stop at the first error or at the first complete parsed request. -/

def runFramer : List Bytes → DynBuf → Except SrvError (Option HTTPReq)
  | [], _ => .ok none
  | c :: cs, buf =>
      match cutMessage (bufPush buf c) with
      | (.error e, _) => .error e
      | (.ok (some req), _) => .ok (some req)
      | (.ok none, buf') => runFramer cs buf'

/-! ## Claim-side predicate for C4

`specValidBase10` follows the claim's words "a valid base-10 integer":
an optional sign followed by one or more decimal digits and nothing else.
It is compared against the code's `parseDec` (JS `parseInt`). -/

def specValidBase10 (s : Bytes) : Bool :=
  let core := match s with | 43 :: r => r | 45 :: r => r | _ => s
  !core.isEmpty && core.all (fun b => decide (48 ≤ b) && decide (b ≤ 57))


/-! ## Concrete inputs used by the claim witnesses and counterexamples -/

/-- A small complete request header block: "GET / HTTP/1.1" CRLF CRLF. -/
def wHdr : Bytes := strBytes "GET / HTTP/1.1\r\n\r\n"

/-- The same block delivered one byte at a time. -/
def wChunks : List Bytes := wHdr.map (fun b => [b])

def wReq : HTTPReq :=
  { method := strBytes "GET", uri := strBytes "/", version := strBytes "HTTP/1.1",
    headers := [] }

/-- A valid 8193-byte request header block: its CRLF CRLF terminator ends
at byte 8193, one past the `kMaxHeaderLen` limit. -/
def bigBlock : Bytes :=
  strBytes "GET / HTTP/1.1\r\nH:" ++ List.replicate 8171 97 ++ [13, 10, 13, 10]

/-- The block `bigBlock` delivered in two reads: the first 8192 bytes, then the rest. -/
def bigChunks : List Bytes := [bigBlock.take 8192, bigBlock.drop 8192]

def bigReq : HTTPReq :=
  { method := strBytes "GET", uri := strBytes "/", version := strBytes "HTTP/1.1",
    headers := [72 :: 58 :: List.replicate 8171 97] }

/-- A connection whose peer has sent FIN: one pending end event. -/
def eofConn : TCPConn := { pending := [.endEv], err := none, ended := false }

/-- The state after the end event was consumed: ended, nothing pending. -/
def endedConn : TCPConn := { pending := [], err := none, ended := true }

/-- A buffer holding one leftover byte of a partial header. -/
def leftBuf : DynBuf := { data := [71], length := 1 }

/-- A buffer holding 8192 bytes and no CRLF CRLF terminator. -/
def cbuf : DynBuf := { data := List.replicate 8192 97, length := 8192 }

/-- A POST request whose Content-Length value has trailing junk. -/
def cReq : HTTPReq :=
  { method := strBytes "POST", uri := strBytes "/", version := strBytes "HTTP/1.1",
    headers := [strBytes "Content-Length: 5x"] }

/-- A POST request whose Content-Length value has no digits at all. -/
def cReq2 : HTTPReq :=
  { method := strBytes "POST", uri := strBytes "/", version := strBytes "HTTP/1.1",
    headers := [strBytes "Content-Length: abc"] }

/-- A header list with two Content-Length entries in different cases. -/
def wHeaders : List Bytes :=
  [strBytes "Host: a", strBytes "content-LENGTH:  42  ", strBytes "Content-Length: 99"]

/-! # Theorems -/

/-! ## Buffer representation lemmas -/

theorem bufCopy_length (src dst : Bytes) (s : Nat) :
    (bufCopy src dst s).length = dst.length := by
  simp only [bufCopy, List.length_append, List.length_take, List.length_drop]
  omega

theorem bufCopy_of_fits (src dst : Bytes) (s : Nat)
    (h : s + src.length ≤ dst.length) :
    bufCopy src dst s = dst.take s ++ src ++ dst.drop (s + src.length) := by
  have hm : min src.length (dst.length - s) = src.length := by omega
  simp only [bufCopy, hm, List.take_length]

theorem growCapGo_ge : ∀ (fuel cap newLen : Nat), 0 < cap →
    newLen ≤ fuel + cap → newLen ≤ growCapGo fuel cap newLen := by
  intro fuel
  induction fuel with
  | zero =>
      intro cap newLen _ hle
      simpa [growCapGo] using hle
  | succ fuel ih =>
      intro cap newLen hpos hle
      rw [growCapGo]
      split_ifs with h1
      · exact ih (cap * 2) newLen (by omega) (by omega)
      · omega

theorem growCap_ge (cap newLen : Nat) (hpos : 0 < cap) :
    newLen ≤ growCap cap newLen :=
  growCapGo_ge newLen cap newLen hpos (by omega)

theorem bufPush_length (buf : DynBuf) (d : Bytes) :
    (bufPush buf d).length = buf.length + d.length := rfl

theorem bufPush_fits (buf : DynBuf) (d : Bytes)
    (hInv : buf.length ≤ buf.data.length) :
    dbContent (bufPush buf d) = dbContent buf ++ d ∧
      (bufPush buf d).length ≤ (bufPush buf d).data.length := by
  have key : ∀ bdata : Bytes, bdata.take buf.length = buf.data.take buf.length →
      buf.length + d.length ≤ bdata.length →
      (bufCopy d bdata buf.length).take (buf.length + d.length)
          = buf.data.take buf.length ++ d ∧
        buf.length + d.length ≤ (bufCopy d bdata buf.length).length := by
    intro bdata hb hfit
    refine ⟨?_, by rw [bufCopy_length]; exact hfit⟩
    rw [bufCopy_of_fits d bdata buf.length hfit]
    have hl : (bdata.take buf.length ++ d).length = buf.length + d.length := by
      simp only [List.length_append, List.length_take]
      omega
    rw [List.take_left' hl, hb]
  simp only [bufPush, dbContent]
  by_cases hgrow : buf.data.length < buf.length + d.length
  · simp only [if_pos hgrow]
    have hge := growCap_ge (max buf.data.length 32) (buf.length + d.length) (by omega)
    have halloc :
        (bufAlloc (growCap (max buf.data.length 32) (buf.length + d.length))).length
          = growCap (max buf.data.length 32) (buf.length + d.length) := by
      simp [bufAlloc]
    have hblen :
        (bufCopy buf.data
            (bufAlloc (growCap (max buf.data.length 32) (buf.length + d.length))) 0).length
          = growCap (max buf.data.length 32) (buf.length + d.length) := by
      rw [bufCopy_length]; exact halloc
    have htake :
        (bufCopy buf.data
            (bufAlloc (growCap (max buf.data.length 32) (buf.length + d.length))) 0).take
              buf.length
          = buf.data.take buf.length := by
      rw [bufCopy_of_fits _ _ 0 (by rw [Nat.zero_add, halloc]; omega)]
      simp only [List.take_zero, List.nil_append, Nat.zero_add]
      exact List.take_append_of_le_length hInv
    exact key _ htake (by rw [hblen]; omega)
  · simp only [if_neg hgrow]
    exact key buf.data rfl (by omega)

theorem bufPush_content (buf : DynBuf) (d : Bytes)
    (hInv : buf.length ≤ buf.data.length) :
    dbContent (bufPush buf d) = dbContent buf ++ d :=
  (bufPush_fits buf d hInv).1

theorem bufPush_inv (buf : DynBuf) (d : Bytes)
    (hInv : buf.length ≤ buf.data.length) :
    (bufPush buf d).length ≤ (bufPush buf d).data.length :=
  (bufPush_fits buf d hInv).2

theorem dbContent_length (buf : DynBuf) (hInv : buf.length ≤ buf.data.length) :
    (dbContent buf).length = buf.length := by
  simp [dbContent, List.length_take]; omega

theorem bufPush_nil (buf : DynBuf) (hInv : buf.length ≤ buf.data.length) :
    bufPush buf [] = buf := by
  simp only [bufPush, List.length_nil, Nat.add_zero]
  rw [if_neg (by omega)]
  rw [bufCopy_of_fits [] buf.data buf.length (by simp; omega)]
  simp

theorem bufPop_content (buf : DynBuf) (len : Nat)
    (hInv : buf.length ≤ buf.data.length) (hlen : len ≤ buf.length) :
    dbContent (bufPop buf len) = (dbContent buf).drop len := by
  simp only [bufPop, dbContent]
  have hseg : ((buf.data.take buf.length).drop len).length = buf.length - len := by
    simp only [List.length_drop, List.length_take]
    omega
  rw [bufCopy_of_fits _ buf.data 0 (by rw [Nat.zero_add, hseg]; omega)]
  simp only [List.take_zero, List.nil_append, Nat.zero_add]
  rw [List.take_left' hseg]

theorem bufPop_inv (buf : DynBuf) (len : Nat)
    (hInv : buf.length ≤ buf.data.length) :
    (bufPop buf len).length ≤ (bufPop buf len).data.length := by
  simp only [bufPop, bufCopy_length]
  omega

/-! ## Characterisation of `bufIndexOf` -/

theorem boolFalse {b : Bool} (h : ¬ b = true) : b = false := by
  cases b with
  | false => rfl
  | true => exact absurd rfl h

theorem boolNotTrue {b : Bool} (h : b = false) : ¬ b = true := by
  rw [h]; exact Bool.false_ne_true

theorem isPrefixOf_length_le {pat hay : Bytes}
    (h : pat.isPrefixOf hay = true) : pat.length ≤ hay.length :=
  ( List.isPrefixOf_iff_prefix.mp h).length_le

theorem bufIndexOf_eq_none_iff (pat hay : Bytes) :
    bufIndexOf pat hay = none ↔ ∀ j, pat.isPrefixOf (hay.drop j) = false := by
  induction hay with
  | nil =>
      simp only [bufIndexOf, List.drop_nil]
      constructor
      · intro h j
        by_cases hp : pat.isPrefixOf [] = true
        · rw [if_pos hp] at h
          cases h
        · exact boolFalse hp
      · intro h
        rw [if_neg (boolNotTrue (h 0))]
  | cons b rest ih =>
      simp only [bufIndexOf]
      constructor
      · intro h j
        by_cases hp : pat.isPrefixOf (b :: rest) = true
        · rw [if_pos hp] at h
          cases h
        · rw [if_neg hp] at h
          cases j with
          | zero => exact boolFalse hp
          | succ j =>
              rw [List.drop_succ_cons]
              refine (ih.mp ?_) j
              cases hrec : bufIndexOf pat rest with
              | none => rfl
              | some k => rw [hrec] at h; cases h
      · intro h
        have h0 := h 0
        rw [List.drop_zero] at h0
        rw [if_neg (boolNotTrue h0)]
        have hrest : bufIndexOf pat rest = none :=
          ih.mpr (fun j => by
            have := h (j + 1)
            rwa [List.drop_succ_cons] at this)
        rw [hrest]
        rfl

theorem bufIndexOf_eq_some_iff (pat : Bytes) : ∀ (hay : Bytes) (k : Nat),
    bufIndexOf pat hay = some k ↔
      (pat.isPrefixOf (hay.drop k) = true ∧
        ∀ j < k, pat.isPrefixOf (hay.drop j) = false) := by
  intro hay
  induction hay with
  | nil =>
      intro k
      simp only [bufIndexOf, List.drop_nil]
      constructor
      · intro h
        by_cases hp : pat.isPrefixOf [] = true
        · rw [if_pos hp] at h
          cases h
          exact ⟨hp, by omega⟩
        · rw [if_neg hp] at h
          cases h
      · rintro ⟨h1, h2⟩
        rw [if_pos h1]
        rcases Nat.eq_zero_or_pos k with hk | hk
        · rw [hk]
        · exact absurd h1 (boolNotTrue (h2 0 hk))
  | cons b rest ih =>
      intro k
      simp only [bufIndexOf]
      by_cases hp : pat.isPrefixOf (b :: rest) = true
      · rw [if_pos hp]
        constructor
        · intro h
          cases h
          exact ⟨hp, by omega⟩
        · rintro ⟨h1, h2⟩
          rcases Nat.eq_zero_or_pos k with hk | hk
          · rw [hk]
          · have := h2 0 hk
            rw [List.drop_zero] at this
            exact absurd hp (boolNotTrue this)
      · rw [if_neg hp]
        constructor
        · intro h
          rcases hrec : bufIndexOf pat rest with _ | k'
          · rw [hrec] at h; cases h
          · rw [hrec] at h
            have h' : some (k' + 1) = some k := h
            cases h'
            rcases (ih k').mp hrec with ⟨h1, h2⟩
            refine ⟨by rwa [List.drop_succ_cons], ?_⟩
            intro j hj
            cases j with
            | zero => exact boolFalse hp
            | succ j =>
                rw [List.drop_succ_cons]
                exact h2 j (by omega)
        · rintro ⟨h1, h2⟩
          cases k with
          | zero =>
              rw [List.drop_zero] at h1
              exact absurd h1 hp
          | succ k' =>
              have hrec : bufIndexOf pat rest = some k' :=
                (ih k').mpr ⟨by rwa [List.drop_succ_cons] at h1,
                  fun j hj => by
                    have := h2 (j + 1) (by omega)
                    rwa [List.drop_succ_cons] at this⟩
              rw [hrec]
              rfl

theorem bufIndexOf_some_le {pat hay : Bytes} {k : Nat}
    (h : bufIndexOf pat hay = some k) : k + pat.length ≤ hay.length := by
  rcases (bufIndexOf_eq_some_iff pat hay k).mp h with ⟨h1, h2⟩
  have hlen := isPrefixOf_length_le h1
  simp only [List.length_drop] at hlen
  rcases le_or_lt k hay.length with hk | hk
  · omega
  · have hnil : hay.drop k = [] := List.drop_eq_nil_of_le (by omega)
    rw [hnil] at h1
    have hp0 := isPrefixOf_length_le h1
    simp only [List.length_nil, Nat.le_zero] at hp0
    have hpat : pat = [] := List.length_eq_zero.mp hp0
    have hcon := h2 0 (by omega)
    rw [hpat, List.drop_zero] at hcon
    simp [List.isPrefixOf] at hcon

theorem isPrefixOf_drop_take {pat hay : Bytes} {j m : Nat}
    (hp : 0 < pat.length) :
    pat.isPrefixOf ((hay.take m).drop j) = true ↔
      j + pat.length ≤ m ∧ pat.isPrefixOf (hay.drop j) = true := by
  rw [List.drop_take]
  constructor
  · intro h
    have hpre := List.isPrefixOf_iff_prefix.mp h
    have hlen := hpre.length_le
    simp only [List.length_take, List.length_drop] at hlen
    have htp : (hay.drop j).take (m - j) <+: hay.drop j :=
      ⟨(hay.drop j).drop (m - j), List.take_append_drop _ _⟩
    refine ⟨by omega, List.isPrefixOf_iff_prefix.mpr (hpre.trans htp)⟩
  · rintro ⟨h1, h2⟩
    rcases List.isPrefixOf_iff_prefix.mp h2 with ⟨r, hr⟩
    rw [← hr]
    have hsplit : m - j = pat.length + (m - j - pat.length) := by omega
    rw [hsplit, List.take_append]
    exact List.isPrefixOf_iff_prefix.mpr ⟨_, rfl⟩

theorem bufIndexOf_take {pat hay : Bytes} {k : Nat} (m : Nat)
    (hp : 0 < pat.length) (h : bufIndexOf pat hay = some k) :
    bufIndexOf pat (hay.take m) =
      if k + pat.length ≤ m then some k else none := by
  rcases (bufIndexOf_eq_some_iff pat hay k).mp h with ⟨h1, h2⟩
  split_ifs with hm
  · refine (bufIndexOf_eq_some_iff pat _ k).mpr
      ⟨(isPrefixOf_drop_take hp).mpr ⟨hm, h1⟩, ?_⟩
    intro j hj
    by_cases hc : pat.isPrefixOf ((hay.take m).drop j) = true
    · rcases (isPrefixOf_drop_take hp).mp hc with ⟨_, hc2⟩
      exact absurd hc2 (boolNotTrue (h2 j hj))
    · exact boolFalse hc
  · refine (bufIndexOf_eq_none_iff pat _).mpr (fun j => ?_)
    by_cases hc : pat.isPrefixOf ((hay.take m).drop j) = true
    · rcases (isPrefixOf_drop_take hp).mp hc with ⟨hc1, hc2⟩
      rcases le_or_lt k j with hkj | hkj
      · omega
      · exact absurd hc2 (boolNotTrue (h2 j hkj))
    · exact boolFalse hc

/-! ## `cutMessage` as a function of the logical content -/

theorem cutMessage_none_eq (buf : DynBuf)
    (h : bufIndexOf crlf2 (dbContent buf) = none) :
    cutMessage buf =
      if kMaxHeaderLen ≤ buf.length then
        (.error (.http 413 "header is too large"), buf)
      else (.ok none, buf) := by
  unfold cutMessage
  rw [h]

theorem cutMessage_some_eq (buf : DynBuf) (idx : Nat)
    (hInv : buf.length ≤ buf.data.length)
    (h : bufIndexOf crlf2 (dbContent buf) = some idx) :
    cutMessage buf =
      match parseHTTPReq ((dbContent buf).take (idx + 4)) with
      | .error e => (.error e, buf)
      | .ok msg => (.ok (some msg), bufPop buf (idx + 4)) := by
  have hle : idx + 4 ≤ buf.length := by
    have h1 := bufIndexOf_some_le h
    rw [dbContent_length buf hInv] at h1
    have h2 : crlf2.length = 4 := rfl
    omega
  have hdata : buf.data.take (idx + 4) = (dbContent buf).take (idx + 4) := by
    unfold dbContent
    rw [List.take_take]
    congr 1
    omega
  have hstep : cutMessage buf =
      match parseHTTPReq (buf.data.take (idx + 4)) with
      | .error e => (.error e, buf)
      | .ok msg => (.ok (some msg), bufPop buf (idx + 4)) := by
    unfold cutMessage
    rw [h]
  rw [hstep, hdata]

/-! ## Incremental framing: feeding chunks is equivalent to one shot -/

theorem runFramer_aux (hs : Bytes) (idx : Nat) (req : HTTPReq)
    (hidx : bufIndexOf crlf2 hs = some idx)
    (hmax : idx + 4 ≤ kMaxHeaderLen)
    (hparse : parseHTTPReq (hs.take (idx + 4)) = .ok req) :
    ∀ (chunks : List Bytes) (buf : DynBuf) (fed : Nat),
      buf.length ≤ buf.data.length →
      dbContent buf = hs.take fed →
      hs.take fed ++ chunks.flatten = hs →
      fed < idx + 4 →
      runFramer chunks buf = .ok (some req) := by
  have hlen4 : idx + 4 ≤ hs.length := by
    have h1 := bufIndexOf_some_le hidx
    have h2 : crlf2.length = 4 := rfl
    omega
  intro chunks
  induction chunks with
  | nil =>
      intro buf fed hInv hc hjoin hfed
      exfalso
      simp only [List.flatten_nil, List.append_nil] at hjoin
      have h1 : (hs.take fed).length = hs.length := by rw [hjoin]
      rw [List.length_take] at h1
      omega
  | cons c cs ih =>
      intro buf fed hInv hc hjoin hfed
      have hfed_lt : fed < hs.length := by omega
      have hbl : buf.length = fed := by
        have h1 := dbContent_length buf hInv
        rw [hc, List.length_take] at h1
        omega
      have hpc : dbContent (bufPush buf c) = hs.take fed ++ c := by
        rw [bufPush_content buf c hInv, hc]
      have hj : (hs.take fed ++ c) ++ cs.flatten = hs := by
        rw [List.append_assoc]
        simpa only [List.flatten_cons] using hjoin
      have hlentc : (hs.take fed ++ c).length = fed + c.length := by
        simp only [List.length_append, List.length_take]
        omega
      have hnext : hs.take fed ++ c = hs.take (fed + c.length) := by
        conv_rhs => rw [← hj]
        rw [List.take_left' hlentc]
      have hlen_push : (bufPush buf c).length = fed + c.length := by
        rw [bufPush_length, hbl]
      have hInv' := bufPush_inv buf c hInv
      by_cases hcase : idx + 4 ≤ fed + c.length
      · have hfind : bufIndexOf crlf2 (dbContent (bufPush buf c)) = some idx := by
          rw [hpc, hnext]
          have h1 := bufIndexOf_take (fed + c.length) (by decide) hidx
          rw [if_pos (by simpa [crlf2] using hcase)] at h1
          exact h1
        simp only [runFramer]
        rw [cutMessage_some_eq _ idx hInv' hfind]
        have harg : (dbContent (bufPush buf c)).take (idx + 4) = hs.take (idx + 4) := by
          rw [hpc, hnext, List.take_take]
          congr 1
          omega
        rw [harg, hparse]
      · push_neg at hcase
        have hfind : bufIndexOf crlf2 (dbContent (bufPush buf c)) = none := by
          rw [hpc, hnext]
          have h1 := bufIndexOf_take (fed + c.length) (by decide) hidx
          rw [if_neg (by simpa [crlf2] using Nat.not_le_of_lt hcase)] at h1
          exact h1
        simp only [runFramer]
        rw [cutMessage_none_eq _ hfind]
        rw [if_neg (by rw [hlen_push]; unfold kMaxHeaderLen at hmax ⊢; omega)]
        exact ih (bufPush buf c) (fed + c.length) hInv'
          (by rw [hpc, hnext])
          (by rw [← hnext, hj])
          hcase

/-! ## Step lemmas for `runFramer` -/

theorem cutMessage_413 (buf : DynBuf)
    (hfind : bufIndexOf crlf2 (dbContent buf) = none)
    (hlen : kMaxHeaderLen ≤ buf.length) :
    cutMessage buf = (.error (.http 413 "header is too large"), buf) := by
  rw [cutMessage_none_eq buf hfind, if_pos hlen]

theorem cutMessage_ok (buf : DynBuf) (idx : Nat) (req : HTTPReq)
    (hInv : buf.length ≤ buf.data.length)
    (hfind : bufIndexOf crlf2 (dbContent buf) = some idx)
    (hparse : parseHTTPReq ((dbContent buf).take (idx + 4)) = .ok req) :
    cutMessage buf = (.ok (some req), bufPop buf (idx + 4)) := by
  rw [cutMessage_some_eq buf idx hInv hfind, hparse]

theorem runFramer_error_step (c : Bytes) (cs : List Bytes) (buf : DynBuf)
    (e : SrvError) (buf' : DynBuf)
    (h : cutMessage (bufPush buf c) = (.error e, buf')) :
    runFramer (c :: cs) buf = .error e := by
  simp only [runFramer]
  rw [h]

theorem runFramer_ok_step (c : Bytes) (cs : List Bytes) (buf : DynBuf)
    (req : HTTPReq) (buf' : DynBuf)
    (h : cutMessage (bufPush buf c) = (.ok (some req), buf')) :
    runFramer (c :: cs) buf = .ok (some req) := by
  simp only [runFramer]
  rw [h]

/-! ## Computation of the framer on `bigBlock` (all lemmas symbolic: the
8171-byte run of the header value never gets evaluated element-wise) -/

theorem rep_idx : ∀ n, bufIndexOf crlf2 (List.replicate n 97 ++ [13, 10, 13, 10]) = some n := by
  intro n
  induction n with
  | zero => decide
  | succ n ih =>
      rw [List.replicate_succ, List.cons_append]
      simp only [bufIndexOf]
      rw [if_neg (by simp [crlf2, List.isPrefixOf])]
      rw [ih]
      rfl

theorem bufIndexOf_cons_ne (b : Nat) (t : Bytes) (hb : (13 == b) = false) :
    bufIndexOf crlf2 (b :: t) = (bufIndexOf crlf2 t).map (· + 1) := by
  simp only [bufIndexOf]
  rw [if_neg (boolNotTrue (by
    show List.isPrefixOf (13 :: [10, 13, 10]) (b :: t) = false
    simp only [List.isPrefixOf, hb, Bool.false_and]))]

theorem bufIndexOf_cons13 (c : Nat) (t : Bytes) (hc : (13 == c) = false) :
    bufIndexOf crlf2 (13 :: 10 :: c :: t) =
      (bufIndexOf crlf2 (10 :: c :: t)).map (· + 1) := by
  simp only [bufIndexOf]
  rw [if_neg (boolNotTrue (by
    show List.isPrefixOf (13 :: 10 :: 13 :: [10]) (13 :: 10 :: c :: t) = false
    simp only [List.isPrefixOf, hc]
    rfl))]

theorem bigBlock_cons : bigBlock =
    71 :: 69 :: 84 :: 32 :: 47 :: 32 :: 72 :: 84 :: 84 :: 80 :: 47 :: 49 :: 46 :: 49
      :: 13 :: 10 :: 72 :: 58 :: (List.replicate 8171 97 ++ [13, 10, 13, 10]) := by
  unfold bigBlock
  have hA : strBytes "GET / HTTP/1.1\r\nH:"
      = [71,69,84,32,47,32,72,84,84,80,47,49,46,49,13,10,72,58] := by decide
  rw [hA]
  simp only [List.cons_append, List.nil_append]

theorem bigBlock_idx : bufIndexOf crlf2 bigBlock = some 8189 := by
  rw [bigBlock_cons]
  rw [bufIndexOf_cons_ne 71 _ rfl, bufIndexOf_cons_ne 69 _ rfl, bufIndexOf_cons_ne 84 _ rfl,
    bufIndexOf_cons_ne 32 _ rfl, bufIndexOf_cons_ne 47 _ rfl, bufIndexOf_cons_ne 32 _ rfl,
    bufIndexOf_cons_ne 72 _ rfl, bufIndexOf_cons_ne 84 _ rfl, bufIndexOf_cons_ne 84 _ rfl,
    bufIndexOf_cons_ne 80 _ rfl, bufIndexOf_cons_ne 47 _ rfl, bufIndexOf_cons_ne 49 _ rfl,
    bufIndexOf_cons_ne 46 _ rfl, bufIndexOf_cons_ne 49 _ rfl]
  rw [bufIndexOf_cons13 72 _ rfl]
  rw [bufIndexOf_cons_ne 10 _ rfl, bufIndexOf_cons_ne 72 _ rfl, bufIndexOf_cons_ne 58 _ rfl]
  rw [rep_idx 8171]
  rfl

theorem bigBlock_len : bigBlock.length = 8193 := by
  have hA : (strBytes "GET / HTTP/1.1\r\nH:").length = 18 := by decide
  unfold bigBlock
  rw [List.length_append, List.length_append, List.length_replicate, hA]
  decide

theorem bigBlock_take_none : bufIndexOf crlf2 (bigBlock.take 8192) = none := by
  rw [bufIndexOf_take 8192 (by decide) bigBlock_idx]
  rw [if_neg (by decide)]

theorem splitRep : ∀ n (acc : Bytes),
    splitLinesGo (List.replicate n 97 ++ [13, 10, 13, 10]) acc
      = [acc ++ List.replicate n 97, []] := by
  intro n
  induction n with
  | zero =>
      intro acc
      simp [splitLinesGo]
  | succ n ih =>
      intro acc
      rw [List.replicate_succ, List.cons_append]
      rw [show splitLinesGo (97 :: (List.replicate n 97 ++ [13, 10, 13, 10])) acc
          = splitLinesGo (List.replicate n 97 ++ [13, 10, 13, 10]) (acc ++ [97]) from rfl]
      rw [ih (acc ++ [97])]
      simp [List.append_assoc]

theorem splitGo_13_10 : ∀ (u acc : Bytes),
    splitLinesGo (13 :: 10 :: u) acc = acc :: splitLinesGo u [] := fun _ _ => rfl

theorem bigSplit : splitLines bigBlock
    = [[71,69,84,32,47,32,72,84,84,80,47,49,46,49],
       72 :: 58 :: List.replicate 8171 97, []] := by
  have st71 : ∀ (u acc : Bytes), splitLinesGo (71 :: u) acc = splitLinesGo u (acc ++ [71]) :=
    fun _ _ => rfl
  have st69 : ∀ (u acc : Bytes), splitLinesGo (69 :: u) acc = splitLinesGo u (acc ++ [69]) :=
    fun _ _ => rfl
  have st84 : ∀ (u acc : Bytes), splitLinesGo (84 :: u) acc = splitLinesGo u (acc ++ [84]) :=
    fun _ _ => rfl
  have st32 : ∀ (u acc : Bytes), splitLinesGo (32 :: u) acc = splitLinesGo u (acc ++ [32]) :=
    fun _ _ => rfl
  have st47 : ∀ (u acc : Bytes), splitLinesGo (47 :: u) acc = splitLinesGo u (acc ++ [47]) :=
    fun _ _ => rfl
  have st72 : ∀ (u acc : Bytes), splitLinesGo (72 :: u) acc = splitLinesGo u (acc ++ [72]) :=
    fun _ _ => rfl
  have st80 : ∀ (u acc : Bytes), splitLinesGo (80 :: u) acc = splitLinesGo u (acc ++ [80]) :=
    fun _ _ => rfl
  have st49 : ∀ (u acc : Bytes), splitLinesGo (49 :: u) acc = splitLinesGo u (acc ++ [49]) :=
    fun _ _ => rfl
  have st46 : ∀ (u acc : Bytes), splitLinesGo (46 :: u) acc = splitLinesGo u (acc ++ [46]) :=
    fun _ _ => rfl
  have st58 : ∀ (u acc : Bytes), splitLinesGo (58 :: u) acc = splitLinesGo u (acc ++ [58]) :=
    fun _ _ => rfl
  rw [bigBlock_cons]
  unfold splitLines
  rw [st71, st69, st84, st32, st47, st32, st72, st84, st84, st80, st47, st49, st46, st49]
  rw [splitGo_13_10]
  rw [st72, st58]
  rw [splitRep 8171]
  rfl

theorem trimRep : trimBytes (List.replicate 8171 97) = List.replicate 8171 97 := by
  unfold trimBytes
  rw [List.dropWhile_replicate]
  rw [if_neg (by decide)]
  rw [List.reverse_replicate, List.dropWhile_replicate, if_neg (by decide),
    List.reverse_replicate]

theorem bigColon : bufIndexOf [58] (72 :: 58 :: List.replicate 8171 97) = some 1 := rfl

theorem validateHeader_some (h : Bytes) (i : Nat)
    (hc : bufIndexOf [58] h = some i) :
    validateHeader h =
      (if (trimBytes (h.take i)).isEmpty || (trimBytes (h.drop (i + 1))).isEmpty
        then false
        else (trimBytes (h.take i)).all isTokenByte) := by
  unfold validateHeader
  rw [hc]

theorem bigValid : validateHeader (72 :: 58 :: List.replicate 8171 97) = true := by
  rw [validateHeader_some _ 1 bigColon]
  rw [show ((72 :: 58 :: List.replicate 8171 97).take 1 : Bytes) = [72] from rfl]
  rw [show ((72 :: 58 :: List.replicate 8171 97).drop 2 : Bytes) = List.replicate 8171 97 from rfl]
  rw [trimRep]
  rw [show (List.replicate 8171 97 : Bytes).isEmpty = false from rfl]
  decide

theorem parseHTTPReq_split (data l0 hline m u v : Bytes)
    (hsp : splitLines data = [l0, hline, []])
    (hm : parseRequestLine l0 = .ok (m, u, v))
    (hv : validateHeader hline = true) :
    parseHTTPReq data = .ok { method := m, uri := u, version := v, headers := [hline] } := by
  unfold parseHTTPReq
  rw [hsp]
  rw [show ([l0, hline, ([] : Bytes)].headD []) = l0 from rfl]
  rw [hm]
  rw [show (([l0, hline, ([] : Bytes)].drop 1).dropLast) = [hline] from rfl]
  have hch : checkHeaders [hline] = .ok [hline] := by
    show (if validateHeader hline = true
        then (checkHeaders []).map (fun hs => hline :: hs)
        else .error (.http 400 "bad field")) = _
    rw [if_pos hv]
    rfl
  rw [hch]

theorem bigParse : parseHTTPReq bigBlock = .ok bigReq :=
  parseHTTPReq_split bigBlock _ _ _ _ _ bigSplit (by decide) bigValid

theorem bigChunks_flatten : bigChunks.flatten = bigBlock := by
  unfold bigChunks
  simp only [List.flatten_cons, List.flatten_nil, List.append_nil]
  exact List.take_append_drop 8192 bigBlock

theorem bigTake_content : dbContent (bufPush emptyDynBuf (bigBlock.take 8192)) = bigBlock.take 8192 := by
  rw [bufPush_content _ _ (Nat.le_refl 0)]
  rfl

theorem bigTake_len : (bufPush emptyDynBuf (bigBlock.take 8192)).length = 8192 := by
  rw [bufPush_length, List.length_take, bigBlock_len]
  decide

theorem bigChunks_run : runFramer bigChunks emptyDynBuf
    = .error (.http 413 "header is too large") := by
  rw [show bigChunks = [bigBlock.take 8192, bigBlock.drop 8192] from rfl]
  exact runFramer_error_step _ _ _ _ _
    (cutMessage_413 _ (by rw [bigTake_content]; exact bigBlock_take_none)
      (by rw [bigTake_len]; decide))

theorem bigFull_content : dbContent (bufPush emptyDynBuf bigBlock) = bigBlock := by
  rw [bufPush_content _ _ (Nat.le_refl 0)]
  rfl

theorem bigOne_run : runFramer [bigBlock] emptyDynBuf = .ok (some bigReq) :=
  runFramer_ok_step _ _ _ _ _
    (cutMessage_ok _ 8189 bigReq (bufPush_inv _ _ (Nat.le_refl 0))
      (by rw [bigFull_content]; exact bigBlock_idx)
      (by
        rw [bigFull_content]
        rw [show bigBlock.take (8189 + 4) = bigBlock from
          List.take_of_length_le (by rw [bigBlock_len])]
        exact bigParse))

/-! ## Claim C1 -/

/-- C1 (amended): feeding a request header block to the buffer in any
sequence of chunks and repeatedly calling `cutMessage` produces the same
parsed request as a single append and a single `cutMessage`, provided the
CRLF CRLF terminator's last byte lies within the first `kMaxHeaderLen`
(8192) bytes.  (Without that bound the claim fails: see the
counterexample.) -/
theorem cutMessage_chunking (hs : Bytes) (idx : Nat) (req : HTTPReq)
    (chunks : List Bytes)
    (hidx : bufIndexOf crlf2 hs = some idx)
    (hmax : idx + 4 ≤ kMaxHeaderLen)
    (hone : runFramer [hs] emptyDynBuf = .ok (some req))
    (hjoin : chunks.flatten = hs) :
    runFramer chunks emptyDynBuf = .ok (some req) := by
  have hInv0 : emptyDynBuf.length ≤ emptyDynBuf.data.length := Nat.le_refl 0
  have hc0 : dbContent (bufPush emptyDynBuf hs) = hs := by
    rw [bufPush_content _ _ hInv0]
    rfl
  have hInv1 := bufPush_inv emptyDynBuf hs hInv0
  have hfind0 : bufIndexOf crlf2 (dbContent (bufPush emptyDynBuf hs)) = some idx := by
    rw [hc0]; exact hidx
  have hparse : parseHTTPReq (hs.take (idx + 4)) = .ok req := by
    rcases hp : parseHTTPReq (hs.take (idx + 4)) with e | msg
    · exfalso
      have hcm : cutMessage (bufPush emptyDynBuf hs)
          = (.error e, bufPush emptyDynBuf hs) := by
        rw [cutMessage_some_eq _ idx hInv1 hfind0, hc0, hp]
      have hrun : runFramer [hs] emptyDynBuf = .error e :=
        runFramer_error_step _ _ _ _ _ hcm
      rw [hone] at hrun
      exact Except.noConfusion hrun
    · have hcm : cutMessage (bufPush emptyDynBuf hs)
          = (.ok (some msg), bufPop (bufPush emptyDynBuf hs) (idx + 4)) := by
        rw [cutMessage_some_eq _ idx hInv1 hfind0, hc0, hp]
      have hrun : runFramer [hs] emptyDynBuf = .ok (some msg) :=
        runFramer_ok_step _ _ _ _ _ hcm
      rw [hone] at hrun
      have hreq : req = msg := Option.some.inj (Except.ok.inj hrun)
      rw [hreq]
  exact runFramer_aux hs idx req hidx hmax hparse chunks emptyDynBuf 0 hInv0
    (by rfl) (by simpa using hjoin) (by omega)

/-- Witness for C1: the 18-byte header block `wHdr` fed one byte at a time
parses to the same request as in one shot. -/
theorem cutMessage_chunking_witness :
    bufIndexOf crlf2 wHdr = some 14 ∧ 14 + 4 ≤ kMaxHeaderLen ∧
    runFramer [wHdr] emptyDynBuf = .ok (some wReq) ∧
    wChunks.flatten = wHdr ∧
    runFramer wChunks emptyDynBuf = .ok (some wReq) :=
  ⟨by decide, by decide, by decide, by decide,
    cutMessage_chunking wHdr 14 wReq wChunks (by decide) (by decide) (by decide)
      (by decide)⟩

/-- Counterexample to C1 as stated: `bigBlock` is a valid 8193-byte header
block; in one shot it parses to `bigReq`, but split as 8192 bytes plus the
final byte, the framer raises the 413 "header is too large" error
instead. -/
theorem cutMessage_chunking_cex :
    bigChunks.flatten = bigBlock ∧
    runFramer [bigBlock] emptyDynBuf = .ok (some bigReq) ∧
    runFramer bigChunks emptyDynBuf = .error (.http 413 "header is too large") ∧
    runFramer bigChunks emptyDynBuf ≠ runFramer [bigBlock] emptyDynBuf := by
  refine ⟨bigChunks_flatten, bigOne_run, bigChunks_run, ?_⟩
  rw [bigOne_run, bigChunks_run]
  exact fun h => Except.noConfusion h

/-! ## Claim C2 -/

theorem rep_none : ∀ n, bufIndexOf crlf2 (List.replicate n 97) = none := by
  intro n
  induction n with
  | zero => decide
  | succ n ih =>
      rw [List.replicate_succ]
      simp only [bufIndexOf]
      rw [if_neg (by simp [crlf2, List.isPrefixOf])]
      rw [ih]
      rfl

/-- C2: when the buffer does not yet contain the CRLF CRLF terminator,
`cutMessage` fails with the HTTP 413 "header is too large" error if the
buffer holds 8192 bytes or more, and signals incomplete (`null`) when it
is shorter, in both cases leaving the buffer untouched. -/
theorem cutMessage_limits (buf : DynBuf)
    (h : bufIndexOf crlf2 (dbContent buf) = none) :
    cutMessage buf =
      if 8192 ≤ buf.length then
        (.error (.http 413 "header is too large"), buf)
      else (.ok none, buf) := by
  rw [cutMessage_none_eq buf h]
  rfl

/-- Witness for C2 at an 8192-byte buffer without a terminator. -/
theorem cutMessage_limits_witness :
    bufIndexOf crlf2 (dbContent cbuf) = none ∧
    cutMessage cbuf = (.error (.http 413 "header is too large"), cbuf) := by
  have hd : dbContent cbuf = List.replicate 8192 97 := by
    show List.take 8192 (List.replicate 8192 97) = _
    rw [List.take_replicate, Nat.min_self]
  have h : bufIndexOf crlf2 (dbContent cbuf) = none := by
    rw [hd]; exact rep_none 8192
  refine ⟨h, ?_⟩
  rw [cutMessage_limits cbuf h, if_pos (by decide)]

/-! ## Claim C3 -/

/-- C3: `parseRequestLine` succeeds exactly when splitting the line on
single spaces yields exactly 3 tokens whose first token is a whitelisted
method, returning those tokens; in every other case it fails with an HTTP
400 error and produces no partial result. -/
theorem parseRequestLine_spec (line : Bytes) :
    match splitSp line with
    | [m, u, v] =>
        if validMethods.contains m then parseRequestLine line = .ok (m, u, v)
        else parseRequestLine line = .error (.http 400 "Invalid HTTP method")
    | _ => parseRequestLine line = .error (.http 400 "Malformed request line") := by
  rcases hsp : splitSp line with _ | ⟨m, _ | ⟨u, _ | ⟨v, _ | ⟨w, ws⟩⟩⟩⟩
  · show parseRequestLine line = .error (.http 400 "Malformed request line")
    unfold parseRequestLine
    rw [hsp]
  · show parseRequestLine line = .error (.http 400 "Malformed request line")
    unfold parseRequestLine
    rw [hsp]
  · show parseRequestLine line = .error (.http 400 "Malformed request line")
    unfold parseRequestLine
    rw [hsp]
  · show if validMethods.contains m then parseRequestLine line = .ok (m, u, v)
      else parseRequestLine line = .error (.http 400 "Invalid HTTP method")
    split_ifs with hm
    · unfold parseRequestLine
      rw [hsp]
      show (if validMethods.contains m then Except.ok (m, u, v) else _) = _
      rw [if_pos hm]
    · unfold parseRequestLine
      rw [hsp]
      show (if validMethods.contains m then Except.ok (m, u, v) else _) = _
      rw [if_neg hm]
  · show parseRequestLine line = .error (.http 400 "Malformed request line")
    unfold parseRequestLine
    rw [hsp]

/-! ## Claim C9 -/

/-- C9: `cutMessage` is atomic on failure: whenever it returns `null`
(incomplete) or throws (oversized header or any parse error), the
buffer's logical content and length are exactly those before the call;
only a successful parse removes bytes. -/
theorem cutMessage_atomic (buf : DynBuf)
    (h : (cutMessage buf).1 = .ok none ∨ ∃ e, (cutMessage buf).1 = .error e) :
    dbContent (cutMessage buf).2 = dbContent buf ∧
      (cutMessage buf).2.length = buf.length := by
  rcases hfind : bufIndexOf crlf2 (dbContent buf) with _ | idx
  · rw [cutMessage_none_eq buf hfind]
    split_ifs <;> exact ⟨rfl, rfl⟩
  · have hstep : cutMessage buf =
        match parseHTTPReq (buf.data.take (idx + 4)) with
        | .error e => (.error e, buf)
        | .ok msg => (.ok (some msg), bufPop buf (idx + 4)) := by
      unfold cutMessage
      rw [hfind]
    rcases hp : parseHTTPReq (buf.data.take (idx + 4)) with e | msg
    · rw [hstep, hp]
      exact ⟨rfl, rfl⟩
    · exfalso
      rw [hstep, hp] at h
      rcases h with h | ⟨e, h⟩
      · have : some msg = none := Except.ok.inj h
        cases this
      · exact Except.noConfusion h

/-- Witness for C9: on an empty buffer `cutMessage` returns `null` and
leaves the buffer as it was. -/
theorem cutMessage_atomic_witness :
    (cutMessage emptyDynBuf).1 = .ok none ∧
    dbContent (cutMessage emptyDynBuf).2 = dbContent emptyDynBuf ∧
    (cutMessage emptyDynBuf).2.length = emptyDynBuf.length := by
  have h : (cutMessage emptyDynBuf).1 = .ok none := by decide
  exact ⟨h, cutMessage_atomic emptyDynBuf (Or.inl h)⟩

/-! ## Claim C10 -/

theorem fieldGetGo_none (lk : Bytes) (hs : List Bytes)
    (hall : ∀ x ∈ hs, headerNameIs lk x = false) : fieldGetGo lk hs = none := by
  induction hs with
  | nil => rfl
  | cons a t ih =>
      simp only [fieldGetGo]
      rw [if_neg (boolNotTrue (hall a (List.mem_cons_self a t)))]
      exact ih (fun x hx => hall x (List.mem_cons_of_mem a hx))

/-- C10: `fieldGet` returns the trimmed value of the first header line (in
list order) whose name matches case-insensitively — so later duplicates of
the same name are ignored — and `null` when no line matches. -/
theorem fieldGet_spec :
    (∀ (key : Bytes) (hs : List Bytes),
        (∀ x ∈ hs, headerNameIs (lowerBytes key) x = false) →
        fieldGet hs key = none) ∧
    (∀ (key : Bytes) (hs1 : List Bytes) (h : Bytes) (hs2 : List Bytes),
        (∀ x ∈ hs1, headerNameIs (lowerBytes key) x = false) →
        headerNameIs (lowerBytes key) h = true →
        fieldGet (hs1 ++ h :: hs2) key = some (headerValueOf h)) := by
  constructor
  · intro key hs hall
    exact fieldGetGo_none _ hs hall
  · intro key hs1 h hs2 hall hmatch
    unfold fieldGet
    induction hs1 with
    | nil =>
        simp only [List.nil_append, fieldGetGo]
        rw [if_pos hmatch]
    | cons a t ih =>
        simp only [List.cons_append, fieldGetGo]
        rw [if_neg (boolNotTrue (hall a (List.mem_cons_self a t)))]
        exact ih (fun x hx => hall x (List.mem_cons_of_mem a hx))

/-- Witness for C10: the second header matches "Content-Length"
case-insensitively, its value is trimmed, and the third (duplicate) header
is ignored. -/
theorem fieldGet_spec_witness :
    (∀ x ∈ [strBytes "Host: a"],
      headerNameIs (lowerBytes (strBytes "Content-Length")) x = false) ∧
    headerNameIs (lowerBytes (strBytes "Content-Length"))
      (strBytes "content-LENGTH:  42  ") = true ∧
    fieldGet wHeaders (strBytes "Content-Length") = some (strBytes "42") := by
  refine ⟨by decide, by decide, ?_⟩
  have h := fieldGet_spec.2 (strBytes "Content-Length") [strBytes "Host: a"]
    (strBytes "content-LENGTH:  42  ") [strBytes "Content-Length: 99"]
    (by decide) (by decide)
  rw [show wHeaders = [strBytes "Host: a"] ++ strBytes "content-LENGTH:  42  "
      :: [strBytes "Content-Length: 99"] from rfl]
  rw [h]
  decide

/-! ## Claim C4 -/

/-- C4 (amended): body-reader construction fails with HTTP 400 "bad
Content-Length." exactly when `parseInt` yields NaN on the value — that
is, when no decimal digits follow the optional sign.  (A value with a
numeric prefix and trailing junk, such as "5x", is accepted with the
prefix's value: see the counterexample.) -/
theorem readerFromReq_badCL (req : HTTPReq) (v : Bytes)
    (hget : fieldGet req.headers (strBytes "Content-Length") = some v)
    (hp : parseDec v = none) :
    readerFromReq req = .error (.http 400 "bad Content-Length.") := by
  have hb0 : bodyLenOf req.headers =
      match parseDec v with
      | none => .error (.http 400 "bad Content-Length.")
      | some n => .ok n := by
    unfold bodyLenOf
    rw [hget]
  have hb : bodyLenOf req.headers = .error (.http 400 "bad Content-Length.") := by
    rw [hb0, hp]
  unfold readerFromReq
  rw [hb]

/-- Witness for C4 (amended): "Content-Length: abc" is rejected with 400. -/
theorem readerFromReq_badCL_witness :
    fieldGet cReq2.headers (strBytes "Content-Length") = some (strBytes "abc") ∧
    parseDec (strBytes "abc") = none ∧
    readerFromReq cReq2 = .error (.http 400 "bad Content-Length.") :=
  ⟨by decide, by decide,
    readerFromReq_badCL cReq2 (strBytes "abc") (by decide) (by decide)⟩

/-- Counterexample to C4 as stated: "5x" is not a valid base-10 integer,
yet construction succeeds, building a stream-backed reader of length 5
instead of failing with 400. -/
theorem readerFromReq_badCL_cex :
    specValidBase10 (strBytes "5x") = false ∧
    fieldGet cReq.headers (strBytes "Content-Length") = some (strBytes "5x") ∧
    readerFromReq cReq = .ok (.fromConnLength 5) :=
  ⟨by decide, by decide, by decide⟩

/-! ## Claim C5 -/

/-- C5 (amended): with a positive remaining count and an empty shared
buffer, an empty stream read makes the body read fail with the plain JS
`Error` "Unexpected EOF from HTTP body" — a `generic`, transport-level
error, not an `HTTPError` — so `newConnection`'s recovery path sends no
error response for it. -/
theorem bodyRead_eof (conn conn' : TCPConn) (buf : DynBuf) (remain : Int)
    (hr : remain ≠ 0) (hb : buf.length = 0)
    (hread : socketRead conn = some (.ok [], conn')) :
    bodyRead (.fromConnLength remain) conn buf =
      some (.error (.generic "Unexpected EOF from HTTP body"),
        .fromConnLength remain, conn', buf) ∧
    excpResponse (.generic "Unexpected EOF from HTTP body") = none := by
  refine ⟨?_, rfl⟩
  have hred : bodyRead (.fromConnLength remain) conn buf =
      (if remain = 0 then some (.ok [], .fromConnLength remain, conn, buf)
       else if buf.length = 0 then
         match socketRead conn with
         | none => none
         | some (.error e, conn'') => some (.error e, .fromConnLength remain, conn'', buf)
         | some (.ok data, conn'') =>
             if data.length = 0 then
               some (.error (.generic "Unexpected EOF from HTTP body"),
                 .fromConnLength remain, conn'', bufPush buf data)
             else some (lenConsume remain conn'' (bufPush buf data))
       else some (lenConsume remain conn buf)) := rfl
  have hstep : bodyRead (.fromConnLength remain) conn buf =
      (if ([] : Bytes).length = 0 then
        some (.error (.generic "Unexpected EOF from HTTP body"),
          .fromConnLength remain, conn', bufPush buf [])
      else some (lenConsume remain conn' (bufPush buf []))) := by
    rw [hred, if_neg hr, if_pos hb, hread]
  rw [hstep, if_pos (show ([] : Bytes).length = 0 from rfl),
    bufPush_nil buf (by rw [hb]; exact Nat.zero_le _)]

/-- Witness for C5 (amended) at remaining count 5 and a closing peer. -/
theorem bodyRead_eof_witness :
    (5 : Int) ≠ 0 ∧ emptyDynBuf.length = 0 ∧
    socketRead eofConn = some (.ok [], endedConn) ∧
    (bodyRead (.fromConnLength 5) eofConn emptyDynBuf =
        some (.error (.generic "Unexpected EOF from HTTP body"),
          .fromConnLength 5, endedConn, emptyDynBuf) ∧
      excpResponse (.generic "Unexpected EOF from HTTP body") = none) :=
  ⟨by decide, rfl, by decide,
    bodyRead_eof eofConn endedConn emptyDynBuf 5 (by decide) rfl (by decide)⟩

/-- Counterexample to C5 as stated: the premature-EOF failure is the
`generic` error, not an HTTP-level 400/501 one, and the connection
wrapper produces no error response for it. -/
theorem bodyRead_eof_cex :
    bodyRead (.fromConnLength 5) eofConn emptyDynBuf =
      some (.error (.generic "Unexpected EOF from HTTP body"),
        .fromConnLength 5, endedConn, emptyDynBuf) ∧
    excpResponse (.generic "Unexpected EOF from HTTP body") = none :=
  ⟨by decide, rfl⟩

/-! ## Claim C6 -/

/-- C6: in the await-header state, when no complete header can be framed
and the stream read returns an empty chunk, the driver terminates
normally if the buffer is empty and fails with HTTP 400 "Unexpected EOF."
if leftover bytes remain buffered. -/
theorem awaitHeader_eof (conn conn' : TCPConn) (buf : DynBuf)
    (hInv : buf.length ≤ buf.data.length)
    (hterm : bufIndexOf crlf2 (dbContent buf) = none)
    (hlen : buf.length < kMaxHeaderLen)
    (hread : socketRead conn = some (.ok [], conn')) :
    awaitHeader conn buf =
      if buf.length = 0 then some (.ok .closed)
      else some (.error (.http 400 "Unexpected EOF.")) := by
  have hcm : cutMessage buf = (.ok none, buf) := by
    rw [cutMessage_none_eq buf hterm, if_neg (by omega)]
  have hstep : awaitHeader conn buf =
      (if ([] : Bytes).length = 0 ∧ (bufPush buf []).length = 0 then some (.ok .closed)
       else if ([] : Bytes).length = 0 then some (.error (.http 400 "Unexpected EOF."))
       else some (.ok (.again conn' (bufPush buf [])))) := by
    unfold awaitHeader
    rw [hcm, hread]
  rw [hstep, bufPush_nil buf hInv]
  by_cases hb : buf.length = 0
  · rw [if_pos ⟨show ([] : Bytes).length = 0 from rfl, hb⟩, if_pos hb]
  · rw [if_neg (fun hcon => hb hcon.2),
      if_pos (show ([] : Bytes).length = 0 from rfl), if_neg hb]

/-- Witness for C6: an empty read with one leftover byte raises 400. -/
theorem awaitHeader_eof_witness :
    leftBuf.length ≤ leftBuf.data.length ∧
    bufIndexOf crlf2 (dbContent leftBuf) = none ∧
    leftBuf.length < kMaxHeaderLen ∧
    socketRead endedConn = some (.ok [], endedConn) ∧
    awaitHeader endedConn leftBuf = some (.error (.http 400 "Unexpected EOF.")) := by
  refine ⟨by decide, by decide, by decide, by decide, ?_⟩
  rw [awaitHeader_eof endedConn endedConn leftBuf (by decide) (by decide)
    (by decide) (by decide)]
  rw [if_neg (by decide)]

/-! ## Claim C8 -/

/-- C8 (amended): end-of-stream is sticky, not one-shot: once the end
event has been consumed (`ended` set, no stored error), every subsequent
`socketRead` immediately resolves with an empty chunk and leaves the
connection state unchanged. -/
theorem socketRead_after_end (c : TCPConn) (he : c.err = none)
    (hd : c.ended = true) : socketRead c = some (.ok [], c) := by
  unfold socketRead
  rw [he, hd]
  rfl

/-- Witness for C8 (amended) on the ended connection. -/
theorem socketRead_after_end_witness :
    endedConn.err = none ∧ endedConn.ended = true ∧
    socketRead endedConn = some (.ok [], endedConn) :=
  ⟨rfl, rfl, socketRead_after_end endedConn rfl rfl⟩

/-- Counterexample to C8 as stated: after the clean close the first read
returns the empty chunk, and the next read on the same connection returns
an empty end-of-stream chunk again — not "exactly once, never after". -/
theorem socketRead_after_end_cex :
    socketRead eofConn = some (.ok [], endedConn) ∧
    socketRead endedConn = some (.ok [], endedConn) :=
  ⟨by decide, by decide⟩

/-! ## Claim C7 -/

theorem writeBodyLoop_acc : ∀ (fuel : Nat) (conn : TCPConn) (buf : DynBuf)
    (r : BodyReader) (acc : List Bytes),
    ∃ rest, (writeBodyLoop fuel conn buf r acc).1 = acc ++ rest := by
  intro fuel
  induction fuel with
  | zero =>
      intro conn buf r acc
      exact ⟨[], by simp [writeBodyLoop]⟩
  | succ fuel ih =>
      intro conn buf r acc
      rcases hbr : bodyRead r conn buf with _ | x
      · refine ⟨[], ?_⟩
        simp [writeBodyLoop, hbr]
      · obtain ⟨res, r', conn', buf'⟩ := x
        rcases res with e | data
        · refine ⟨[], ?_⟩
          simp [writeBodyLoop, hbr]
        · by_cases hd : data.length = 0
          · refine ⟨[], ?_⟩
            simp [writeBodyLoop, hbr, hd]
          · rcases hw : socketWrite conn' data with e | u
            · refine ⟨[], ?_⟩
              simp [writeBodyLoop, hbr, hd, hw]
            · obtain ⟨rest, hrest⟩ := ih conn' buf' r' (acc ++ [data])
              refine ⟨[data] ++ rest, ?_⟩
              simp only [writeBodyLoop, hbr]
              rw [if_neg hd, hw]
              rw [hrest, List.append_assoc]

theorem fieldGetGo_none_all (lk : Bytes) : ∀ (hs : List Bytes),
    fieldGetGo lk hs = none → ∀ x ∈ hs, headerNameIs lk x = false := by
  intro hs
  induction hs with
  | nil =>
      intro _ x hx
      cases hx
  | cons a t ih =>
      intro h x hx
      simp only [fieldGetGo] at h
      by_cases ha : headerNameIs lk a = true
      · rw [if_pos ha] at h
        cases h
      · rw [if_neg ha] at h
        rcases List.mem_cons.mp hx with rfl | hx'
        · exact boolFalse ha
        · exact ih h x hx'

theorem strBytes_append (a b : String) :
    strBytes (a ++ b) = strBytes a ++ strBytes b := by
  unfold strBytes
  rw [String.data_append, List.map_append]

theorem bufIndexOf_colon_ne (b : Nat) (t : Bytes) (hb : (58 == b) = false) :
    bufIndexOf [58] (b :: t) = (bufIndexOf [58] t).map (· + 1) := by
  simp only [bufIndexOf]
  rw [if_neg (boolNotTrue (by
    show List.isPrefixOf (58 :: []) (b :: t) = false
    simp only [List.isPrefixOf, hb, Bool.false_and]))]

theorem bufIndexOf_colon_here (t : Bytes) : bufIndexOf [58] (58 :: t) = some 0 := by
  simp only [bufIndexOf]
  rw [if_pos (by
    show List.isPrefixOf (58 :: []) (58 :: t) = true
    simp [List.isPrefixOf])]

theorem clHeader_colon (rest : Bytes) :
    bufIndexOf [58] (strBytes "Content-Length: " ++ rest) = some 14 := by
  have hCL : strBytes "Content-Length: "
      = [67,111,110,116,101,110,116,45,76,101,110,103,116,104,58,32] := by decide
  rw [hCL]
  simp only [List.cons_append, List.nil_append]
  rw [bufIndexOf_colon_ne 67 _ rfl, bufIndexOf_colon_ne 111 _ rfl,
    bufIndexOf_colon_ne 110 _ rfl, bufIndexOf_colon_ne 116 _ rfl,
    bufIndexOf_colon_ne 101 _ rfl, bufIndexOf_colon_ne 110 _ rfl,
    bufIndexOf_colon_ne 116 _ rfl, bufIndexOf_colon_ne 45 _ rfl,
    bufIndexOf_colon_ne 76 _ rfl, bufIndexOf_colon_ne 101 _ rfl,
    bufIndexOf_colon_ne 110 _ rfl, bufIndexOf_colon_ne 103 _ rfl,
    bufIndexOf_colon_ne 116 _ rfl, bufIndexOf_colon_ne 104 _ rfl]
  rw [bufIndexOf_colon_here]
  rfl

theorem clHeader_name (n : Int) :
    headerNameIs (lowerBytes (strBytes "Content-Length")) (clHeaderOf n) = true := by
  have hsplit : clHeaderOf n
      = strBytes "Content-Length: " ++ strBytes (toString n) := by
    unfold clHeaderOf
    rw [strBytes_append]
  have hstep : headerNameIs (lowerBytes (strBytes "Content-Length")) (clHeaderOf n)
      = (lowerBytes (trimBytes ((strBytes "Content-Length: "
          ++ strBytes (toString n)).take 14))
        == lowerBytes (strBytes "Content-Length")) := by
    unfold headerNameIs
    rw [hsplit, clHeader_colon]
  rw [hstep, List.take_append_of_le_length (by decide)]
  decide

/-- C7: writing a response whose body declares a non-negative length `n`
appends exactly one Content-Length header (equal to `n`) to the headers
before encoding them (given the invariant that the caller pre-set none);
a negative declared length makes the write fail with the "TODO: chunked
encoding" error. -/
theorem writeHTTPResp_spec (fuel : Nat) (conn : TCPConn) (buf : DynBuf)
    (resp : HTTPRes) :
    (resp.body.length < 0 →
      writeHTTPResp fuel conn buf resp
        = ([], some (.error (.generic "TODO: chunked encoding")))) ∧
    (0 ≤ resp.body.length → conn.err = none →
      fieldGet resp.headers (strBytes "Content-Length") = none →
      (writeHTTPResp fuel conn buf resp).1.head?
          = some (encodeHTTPResp (respWithCL resp)) ∧
        (respWithCL resp).headers = resp.headers ++ [clHeaderOf resp.body.length] ∧
        List.countP (fun h => headerNameIs (lowerBytes (strBytes "Content-Length")) h)
          (respWithCL resp).headers = 1) := by
  constructor
  · intro hneg
    unfold writeHTTPResp
    rw [if_pos hneg]
  · intro hpos herr hnocl
    have hw : socketWrite conn (encodeHTTPResp (respWithCL resp)) = .ok () := by
      unfold socketWrite
      rw [herr]
    have hstep : writeHTTPResp fuel conn buf resp
        = writeBodyLoop fuel conn buf (respWithCL resp).body
            [encodeHTTPResp (respWithCL resp)] := by
      unfold writeHTTPResp
      rw [if_neg (by omega), hw]
    refine ⟨?_, rfl, ?_⟩
    · rw [hstep]
      obtain ⟨rest, hr⟩ := writeBodyLoop_acc fuel conn buf (respWithCL resp).body
        [encodeHTTPResp (respWithCL resp)]
      rw [hr]
      rfl
    · have hgo : fieldGetGo (lowerBytes (strBytes "Content-Length")) resp.headers
          = none := hnocl
      have h0 : List.countP
          (fun h => headerNameIs (lowerBytes (strBytes "Content-Length")) h)
          resp.headers = 0 :=
        List.countP_eq_zero.mpr
          (fun a ha => boolNotTrue (fieldGetGo_none_all _ resp.headers hgo a ha))
      rw [show (respWithCL resp).headers
          = resp.headers ++ [clHeaderOf resp.body.length] from rfl]
      rw [List.countP_append, h0]
      simp [List.countP_cons, clHeader_name]

/-- Witness for C7 at a concrete 200 response with a 2-byte memory body. -/
theorem writeHTTPResp_spec_witness :
    (0 : Int) ≤ (HTTPRes.mk 200 [strBytes "Server: x"]
      (.fromMemory (strBytes "hi") false)).body.length ∧
    endedConn.err = none ∧
    fieldGet [strBytes "Server: x"] (strBytes "Content-Length") = none ∧
    ((writeHTTPResp 5 endedConn emptyDynBuf
        (HTTPRes.mk 200 [strBytes "Server: x"]
          (.fromMemory (strBytes "hi") false))).1.head?
      = some (encodeHTTPResp (respWithCL (HTTPRes.mk 200 [strBytes "Server: x"]
          (.fromMemory (strBytes "hi") false)))) ∧
      (respWithCL (HTTPRes.mk 200 [strBytes "Server: x"]
          (.fromMemory (strBytes "hi") false))).headers
        = [strBytes "Server: x"]
          ++ [clHeaderOf (HTTPRes.mk 200 [strBytes "Server: x"]
              (.fromMemory (strBytes "hi") false)).body.length] ∧
      List.countP (fun h => headerNameIs (lowerBytes (strBytes "Content-Length")) h)
        (respWithCL (HTTPRes.mk 200 [strBytes "Server: x"]
          (.fromMemory (strBytes "hi") false))).headers = 1) :=
  ⟨by decide, rfl, by decide,
    (writeHTTPResp_spec 5 endedConn emptyDynBuf
      (HTTPRes.mk 200 [strBytes "Server: x"] (.fromMemory (strBytes "hi") false))).2
      (by decide) rfl (by decide)⟩

end WebSrv
